import Mathlib

/-
Verification of the PaPDF TrueType subsetter and PDF writer.

This file gives a shallow embedding of the byte-level and table-level
operations of PaPDF/TrueType.py and PaPDF/PaPDF.py, and settles a list of
claims about them.  Bytes are modelled as natural numbers below 256, byte
blobs as lists of naturals, Python's unbounded integers as Nat/Int with
explicit reductions modulo powers of two where the source masks or packs.
-/

namespace PaPDF

/-! ## Byte-stream primitives (class ByteStream of TrueType.py) -/

/-- Big-endian integer value of a byte list; this is `ByteStream.readBytes`
in unsigned mode, whose loop accumulates `data[i] << (8*(numBytes-1-i))`. -/
def beVal : List Nat → Nat
  | [] => 0
  | b :: rest => b * 256 ^ rest.length + beVal rest

/-- Value of `ByteStream.readBytes` in signed mode: the unsigned value is
read first and `1 << (8*numBytes)` is subtracted when the top bit
(`output & (1 << (8*numBytes-1))`) is set. -/
def beValSigned (data : List Nat) : Int :=
  if (beVal data).testBit (8 * data.length - 1) then
    (beVal data : Int) - 2 ^ (8 * data.length)
  else (beVal data : Int)

/-- Padding step of `ByteStream.computeChecksum`: when the length is not a
multiple of four, `4 - len % 4` zero bytes are appended. -/
def padTo4 (data : List Nat) : List Nat :=
  if data.length % 4 = 0 then data
  else data ++ List.replicate (4 - data.length % 4) 0

/-- Summation loop of `ByteStream.computeChecksum`: big-endian 32-bit words
are unpacked (`struct.unpack(">L", data[i:i+4])`) and summed.  The loop
`range(0, len(data)-1, 4)` consumes full words only, and after `padTo4`
the data length is a multiple of four. -/
def sumBE32Words : List Nat → Nat
  | a :: b :: c :: d :: rest => beVal [a, b, c, d] + sumBE32Words rest
  | _ => 0

/-- The static helper `ByteStream.computeChecksum`: zero-pad to a word
boundary, sum the big-endian 32-bit words, and mask with `0xFFFFFFFF`. -/
def computeChecksum (data : List Nat) : Nat :=
  sumBE32Words (padTo4 data) % 4294967296

/-- Bytes of `struct.pack(">L", v)` for `v < 2^32` (big-endian u32). -/
def packBE32 (v : Nat) : List Nat :=
  [v / 16777216 % 256, v / 65536 % 256, v / 256 % 256, v % 256]

/-- Big-endian 32-bit read at byte position `i` of a blob. -/
def readBE32At (l : List Nat) (i : Nat) : Nat := beVal ((l.drop i).take 4)

/-! ## checkSumAdjustment finalization (TrueTypeParser.getEmbeddingData) -/

/-- The value written into `head.checkSumAdjustment`: the source computes
`checksum = 0xB1B0AFBA - ByteStream.computeChecksum(output)` on Python
integers and stores `0xFFFFFFFF & checksum`, i.e. the difference reduced
modulo 2^32. -/
def checkSumAdjustment (checksum : Nat) : Nat :=
  (((0xB1B0AFBA : Int) - (checksum : Int)) % 4294967296).toNat

/-- Final patch step of `getEmbeddingData`: the slice assignment
`output[headOffset+8 : headOffset+12] = struct.pack(">L", 0xFFFFFFFF & checksum)`
on the assembled sfnt blob. -/
def patchChecksumAdjustment (output : List Nat) (headOffset : Nat) : List Nat :=
  output.take (headOffset + 8)
    ++ packBE32 (checkSumAdjustment (computeChecksum output))
    ++ output.drop (headOffset + 12)

theorem beVal_packBE32 (v : Nat) : beVal (packBE32 v) = v % 4294967296 := by
  simp only [packBE32, beVal, List.length_cons, List.length_nil]
  norm_num
  omega

theorem checkSumAdjustment_lt (c : Nat) : checkSumAdjustment c < 4294967296 := by
  unfold checkSumAdjustment
  have h1 : (0:Int) ≤ ((0xB1B0AFBA : Int) - (c : Int)) % 4294967296 :=
    Int.emod_nonneg _ (by norm_num)
  have h2 : ((0xB1B0AFBA : Int) - (c : Int)) % 4294967296 < 4294967296 :=
    Int.emod_lt_of_pos _ (by norm_num)
  omega

/-- C2: after the subset sfnt is assembled, the four bytes stored at offset
8 of the `head` table (file offset `headOffset + 8`) equal
`(0xB1B0AFBA - sfntChecksum) mod 2^32`, where `sfntChecksum` is
`ByteStream.computeChecksum` of the whole file with the
`checkSumAdjustment` field still zero; the second conjunct certifies that
the checksummed blob is exactly the final file with that field zeroed. -/
theorem checkSumAdjustment_stored_correct (output : List Nat) (headOffset : Nat)
    (hlen : headOffset + 12 ≤ output.length)
    (hzero : (output.drop (headOffset + 8)).take 4 = [0, 0, 0, 0]) :
    readBE32At (patchChecksumAdjustment output headOffset) (headOffset + 8)
        = (((0xB1B0AFBA : Int) - (computeChecksum output : Int)) % 4294967296).toNat
      ∧ (patchChecksumAdjustment output headOffset).take (headOffset + 8)
          ++ [0, 0, 0, 0]
          ++ (patchChecksumAdjustment output headOffset).drop (headOffset + 12)
          = output := by
  have hA : (output.take (headOffset + 8)).length = headOffset + 8 := by
    rw [List.length_take]; omega
  have hB : (packBE32 (checkSumAdjustment (computeChecksum output))).length = 4 := rfl
  constructor
  · have hdrop : (patchChecksumAdjustment output headOffset).drop (headOffset + 8)
        = packBE32 (checkSumAdjustment (computeChecksum output))
          ++ output.drop (headOffset + 12) := by
      unfold patchChecksumAdjustment
      rw [List.append_assoc]
      exact List.drop_left' hA
    unfold readBE32At
    rw [hdrop, List.take_left' hB, beVal_packBE32,
      Nat.mod_eq_of_lt (checkSumAdjustment_lt _)]
    rfl
  · have htake : (patchChecksumAdjustment output headOffset).take (headOffset + 8)
        = output.take (headOffset + 8) := by
      unfold patchChecksumAdjustment
      rw [List.append_assoc]
      exact List.take_left' hA
    have hdrop : (patchChecksumAdjustment output headOffset).drop (headOffset + 12)
        = output.drop (headOffset + 12) := by
      unfold patchChecksumAdjustment
      refine List.drop_left' ?_
      rw [List.length_append, hA, hB]
    rw [htake, hdrop, ← hzero]
    have hdd : output.drop (headOffset + 12)
        = (output.drop (headOffset + 8)).drop 4 := by
      rw [List.drop_drop]
    rw [hdd, List.append_assoc, List.take_append_drop, List.take_append_drop]

/-- Closed witness for the C2 theorem at a concrete 16-byte blob whose
checkSumAdjustment field (bytes 8..11) is zero. -/
theorem checkSumAdjustment_stored_correct_witness :
    readBE32At (patchChecksumAdjustment (List.replicate 16 0) 0) 8
        = (((0xB1B0AFBA : Int) - (computeChecksum (List.replicate 16 0) : Int)) % 4294967296).toNat
      ∧ (patchChecksumAdjustment (List.replicate 16 0) 0).take 8
          ++ [0, 0, 0, 0]
          ++ (patchChecksumAdjustment (List.replicate 16 0) 0).drop 12
          = List.replicate 16 0 :=
  checkSumAdjustment_stored_correct (List.replicate 16 0) 0 (by decide) (by decide)

/-! ## Character widths (hmtx consumption and the /W array of _addTrueTypeFonts) -/

/-- Per-character width entry stored into `charWidths` while consuming the
`hmtx` table: the source computes
`int(round(advanceWidth * 1000 // float(unitsPerEm)))` — a FLOOR division
(rounding a value that is already integral is the identity; for the
operand sizes at hand, 16-bit advance width and em count, the float floor
division agrees with exact natural floor division) — and replaces a zero
result by 65535. -/
def ttfCharWidth (advanceWidth unitsPerEm : Nat) : Nat :=
  if advanceWidth * 1000 / unitsPerEm = 0 then 65535
  else advanceWidth * 1000 / unitsPerEm

/-- Width emission step of `PaPDF._addTrueTypeFonts`: a computed width of
at least 65535 collapses to 0 (`if val >= 65535: val = 0`). -/
def pdfEmittedWidth (w : Nat) : Nat := if 65535 ≤ w then 0 else w

/-- The widths listed inside the `/W [ 1 [ ... ] ]` array: one entry per
code point `1..maxChar`, each being the stored `charWidths` entry pushed
through `pdfEmittedWidth`. -/
def wArray (charWidths : List Nat) (maxChar : Nat) : List Nat :=
  (List.range' 1 maxChar).map (fun c => pdfEmittedWidth (charWidths.getD c 0))

/-- Written to the spec claim's words, for comparison: the advance width
scaled to the 1000-unit em and ROUNDED to the nearest integer. -/
def roundedScaledWidth (advanceWidth unitsPerEm : Nat) : Nat :=
  (advanceWidth * 1000 * 2 + unitsPerEm) / (unitsPerEm * 2)

/-- C5 counterexample: for an advance width of 1023 in a 2048-unit em the
scaled width is 1023000/2048 = 499.51..; the code emits the floor 499
while the claim's rounding yields 500, so the claim as stated is false. -/
theorem wArray_width_not_rounded :
    pdfEmittedWidth (ttfCharWidth 1023 2048) = 499
      ∧ roundedScaledWidth 1023 2048 = 500
      ∧ pdfEmittedWidth (ttfCharWidth 1023 2048) ≠ roundedScaledWidth 1023 2048 := by
  refine ⟨by norm_num [ttfCharWidth, pdfEmittedWidth], by norm_num [roundedScaledWidth], ?_⟩
  norm_num [ttfCharWidth, pdfEmittedWidth, roundedScaledWidth]

theorem pdfEmittedWidth_ttfCharWidth (advanceWidth unitsPerEm : Nat) :
    pdfEmittedWidth (ttfCharWidth advanceWidth unitsPerEm)
      = if 65535 ≤ advanceWidth * 1000 / unitsPerEm then 0
        else advanceWidth * 1000 / unitsPerEm := by
  unfold ttfCharWidth pdfEmittedWidth
  by_cases h : advanceWidth * 1000 / unitsPerEm = 0
  · simp [h]
  · simp [h]

/-- C5 amended: the width listed in /W for a covered code point
`c ∈ 1..maxChar` is the glyph's advance width scaled to the 1000-unit em
by floor division (not rounding), and any computed width at or above
65535 — including the 65535 sentinel that the subsetter stores for a zero
scaled width — is emitted as 0. -/
theorem wArray_entry_floor_scaled (advanceWidth unitsPerEm maxChar c : Nat)
    (widths : List Nat) (hu : 0 < unitsPerEm) (hc : 1 ≤ c) (hcm : c ≤ maxChar)
    (hw : widths.getD c 0 = ttfCharWidth advanceWidth unitsPerEm) :
    (wArray widths maxChar).getD (c - 1) 0
      = if 65535 ≤ advanceWidth * 1000 / unitsPerEm then 0
        else advanceWidth * 1000 / unitsPerEm := by
  have hidx : (wArray widths maxChar).getD (c - 1) 0
      = pdfEmittedWidth (widths.getD c 0) := by
    unfold wArray
    have h1 : c - 1 < (List.range' 1 maxChar).length := by
      rw [List.length_range']; omega
    rw [List.getD_eq_getElem _ _ (by simpa using h1)]
    rw [List.getElem_map, List.getElem_range']
    rw [show 1 + 1 * (c - 1) = c from by omega]
  rw [hidx, hw, pdfEmittedWidth_ttfCharWidth]

/-- Closed witness for the amended C5 theorem: a font with a 500-unit
advance in a 1000-unit em lists width 500 for code point 1. -/
theorem wArray_entry_floor_scaled_witness :
    (wArray [0, ttfCharWidth 500 1000] 1).getD 0 0
      = if 65535 ≤ 500 * 1000 / 1000 then 0 else 500 * 1000 / 1000 :=
  wArray_entry_floor_scaled 500 1000 1 1 [0, ttfCharWidth 500 1000]
    (by decide) (by decide) (by decide) (by decide)

/-! ## Used-character bookkeeping (addTrueTypeFont and addText) -/

/-- The initial used-characters set of a fresh TrueType registration: the
source stores `set(range(1, 32))`, i.e. the code points 1..31. -/
def initialUsedCharacters : List Nat := List.range' 1 31

/-- Used-characters update performed by `addText` (and `addGradientText`):
`newChars = [ord(c) for c in set(multiLineText) if ord(c) != 0]` unioned
into the registration's set.  Sets are modelled as lists up to
membership; the text is the list of its code points. -/
def addTextUsedCharacters (used : List Nat) (text : List Nat) : List Nat :=
  used ++ text.filter (fun c => c ≠ 0)

/-- C9: immediately after addTrueTypeFont the registration's
usedCharacters set is exactly the code points 1 through 31 (in particular
non-empty), and every later addText adds exactly the code points of the
drawn text except that code point 0 is never added. -/
theorem usedCharacters_initial_and_update :
    (∀ c, c ∈ initialUsedCharacters ↔ 1 ≤ c ∧ c ≤ 31)
      ∧ initialUsedCharacters ≠ []
      ∧ (∀ (used text : List Nat) (c : Nat),
          c ∈ addTextUsedCharacters used text ↔ c ∈ used ∨ (c ∈ text ∧ c ≠ 0))
      ∧ (∀ used text : List Nat, 0 ∈ addTextUsedCharacters used text ↔ 0 ∈ used) := by
  refine ⟨?_, by decide, ?_, ?_⟩
  · intro c
    simp only [initialUsedCharacters, List.mem_range'_1]
    omega
  · intro used text c
    simp [addTextUsedCharacters, List.mem_filter]
  · intro used text
    simp [addTextUsedCharacters, List.mem_filter]

/-! ## EAN-13 checksum handling (PaPDF.addEAN13) -/

/-- The weight list `[1,3]*6` of addEAN13. -/
def ean13Weights : List Nat := [1, 3, 1, 3, 1, 3, 1, 3, 1, 3, 1, 3]

/-- The check digit addEAN13 computes from the first 12 digits:
`(10 - (sum(d*w) % 10)) % 10`. -/
def ean13ComputedChecksum (digits : List Nat) : Nat :=
  (10 - (List.zipWith (· * ·) (digits.take 12) ean13Weights).sum % 10) % 10

inductive Ean13Error
  | wrongLength
  | checksumMismatch
deriving DecidableEq

/-- The digit string addEAN13 actually renders:
`numbers = numbers[0:12] + str(computedChecksum)`, the substitution being
performed unconditionally before the validation check. -/
def ean13RenderedDigits (digits : List Nat) : List Nat :=
  digits.take 12 ++ [ean13ComputedChecksum digits]

/-- addEAN13 up to the point where drawing starts: the length check, the
checksum computation and substitution, and the optional validation raise.
On error nothing has been drawn; on success the returned digits drive all
bars and digit text. -/
def ean13Process (digits : List Nat) (validateChecksum : Bool) :
    Except Ean13Error (List Nat) :=
  if digits.length ≠ 13 then .error .wrongLength
  else if validateChecksum ∧ ean13ComputedChecksum digits ≠ digits.getD 12 0 then
    .error .checksumMismatch
  else .ok (ean13RenderedDigits digits)

/-- C10: addEAN13 always renders with the computed check digit in place of
the caller's 13th digit; with validateChecksum a mismatch raises before
anything is drawn, and without it a mismatching 13th digit is silently
replaced in the output. -/
theorem ean13_renders_computed_checksum (digits : List Nat) (validateChecksum : Bool)
    (hlen : digits.length = 13) :
    (∀ rendered, ean13Process digits validateChecksum = .ok rendered →
        rendered = digits.take 12 ++ [ean13ComputedChecksum digits]
          ∧ rendered.getD 12 0 = ean13ComputedChecksum digits)
      ∧ (validateChecksum = true →
          (ean13Process digits true = .error .checksumMismatch
            ↔ ean13ComputedChecksum digits ≠ digits.getD 12 0))
      ∧ (validateChecksum = false →
          ean13Process digits false
            = .ok (digits.take 12 ++ [ean13ComputedChecksum digits])) := by
  have htk : (digits.take 12).length = 12 := by
    rw [List.length_take]; omega
  have hget : (digits.take 12 ++ [ean13ComputedChecksum digits]).getD 12 0
      = ean13ComputedChecksum digits := by
    rw [List.getD_eq_getElem _ _ (by simp [htk])]
    rw [List.getElem_append_right (by omega)]
    simp [htk]
  refine ⟨?_, ?_, ?_⟩
  · intro rendered hok
    unfold ean13Process at hok
    rw [if_neg (by omega)] at hok
    split at hok
    · exact absurd hok (by simp)
    · refine ⟨by injection hok with h; exact h.symm ▸ rfl, ?_⟩
      injection hok with h
      rw [← h]
      exact hget
  · intro hv
    unfold ean13Process
    rw [if_neg (by omega)]
    constructor
    · intro hmem
      by_contra hc
      rw [if_neg (by simp [hc])] at hmem
      exact absurd hmem (by simp)
    · intro hne
      rw [if_pos (by exact ⟨rfl, hne⟩)]
  · intro hv
    unfold ean13Process
    rw [if_neg (by omega), if_neg (by simp)]
    rfl

/-- Closed witness for the C10 theorem at the spec's example barcode
"4012345123456" (whose computed check digit is indeed 6). -/
theorem ean13_renders_computed_checksum_witness :
    ean13Process [4, 0, 1, 2, 3, 4, 5, 1, 2, 3, 4, 5, 6] false
      = .ok ([4, 0, 1, 2, 3, 4, 5, 1, 2, 3, 4, 5, 6].take 12
          ++ [ean13ComputedChecksum [4, 0, 1, 2, 3, 4, 5, 1, 2, 3, 4, 5, 6]]) :=
  (ean13_renders_computed_checksum [4, 0, 1, 2, 3, 4, 5, 1, 2, 3, 4, 5, 6] false
    (by decide)).2.2 rfl

/-! ## Font registration cap (PaPDF.addTrueTypeFont) -/

/-- The font registry, modelled as the insertion-ordered association of
font name to assigned fontId (the only fields this claim concerns) —
mirroring the Python dict `self.fonts`. -/
abbrev FontRegistry := List (String × Nat)

/-- Python dict assignment `fonts[name] = record`: replaces in place when
the key exists, appends otherwise. -/
def dictInsert (reg : FontRegistry) (name : String) (fid : Nat) : FontRegistry :=
  if reg.any (fun p => p.1 = name) then
    reg.map (fun p => if p.1 = name then (name, fid) else p)
  else reg ++ [(name, fid)]

inductive FontAddError
  | tooManyFonts
deriving DecidableEq

/-- addTrueTypeFont: raises TooManyFonts when `len(self.fonts) >= 625`
(before any mutation), otherwise inserts the new registration with
`fontId = len(self.fonts)`.  The pair returns the registry after the call
and the raised error, if any. -/
def addTrueTypeFont (reg : FontRegistry) (name : String) :
    FontRegistry × Option FontAddError :=
  if 625 ≤ reg.length then (reg, some .tooManyFonts)
  else (dictInsert reg name reg.length, none)

/-- The registry every document starts with: Helvetica with fontId 0. -/
def initialFontRegistry : FontRegistry := [("Helvetica", 0)]

/-- Sequential registration of a list of fonts; a raise aborts the rest. -/
def registerFonts (reg : FontRegistry) :
    List String → FontRegistry × Option FontAddError
  | [] => (reg, none)
  | n :: rest =>
    match addTrueTypeFont reg n with
    | (reg', some e) => (reg', some e)
    | (reg', none) => registerFonts reg' rest

theorem registerFonts_dense (names : List String) (reg : FontRegistry)
    (hfresh : ∀ n ∈ names, ∀ p ∈ reg, p.1 ≠ n) (hnd : names.Nodup)
    (hids : reg.map Prod.snd = List.range reg.length)
    (hcap : reg.length + names.length ≤ 625) :
    (registerFonts reg names).2 = none
      ∧ (registerFonts reg names).1.map Prod.snd
          = List.range (reg.length + names.length) := by
  induction names generalizing reg with
  | nil => simpa [registerFonts] using hids
  | cons n rest ih =>
    have hlt : reg.length < 625 := by
      have := hcap
      simp only [List.length_cons] at this
      omega
    have hnotmem : reg.any (fun p => p.1 = n) = false := by
      rw [List.any_eq_false]
      intro p hp
      simpa using hfresh n (by simp) p hp
    have hstep : addTrueTypeFont reg n = (reg ++ [(n, reg.length)], none) := by
      unfold addTrueTypeFont dictInsert
      rw [if_neg (by omega), hnotmem]
      simp
    have hids' : (reg ++ [(n, reg.length)]).map Prod.snd
        = List.range (reg ++ [(n, reg.length)]).length := by
      rw [List.map_append, hids]
      simp [List.range_succ]
    have hfresh' : ∀ m ∈ rest, ∀ p ∈ reg ++ [(n, reg.length)], p.1 ≠ m := by
      intro m hm p hp
      rcases List.mem_append.mp hp with h | h
      · exact hfresh m (by simp [hm]) p h
      · simp only [List.mem_singleton] at h
        subst h
        intro hEq
        cases hEq
        exact (List.nodup_cons.mp hnd).1 hm
    have := ih (reg ++ [(n, reg.length)]) hfresh' (List.nodup_cons.mp hnd).2 hids'
      (by simp only [List.length_append, List.length_singleton,
            List.length_cons, List.length_nil] at hcap ⊢; omega)
    simp only [registerFonts, hstep]
    simp only [List.length_append, List.length_singleton, List.length_cons,
      List.length_nil] at this ⊢
    refine ⟨this.1, ?_⟩
    rw [this.2]
    congr 1
    omega

/-- C8: addTrueTypeFont fails with TooManyFonts exactly when the registry
already holds 625 fonts (so registration beyond 625 fonts is refused), it
leaves the registry unchanged on that failure, any registration below the
cap succeeds, and starting from the Helvetica-only registry a sequence of
fresh names receives the dense fontIds 0, 1, ..., n in order. -/
theorem addTrueTypeFont_cap_and_dense (reg : FontRegistry) (name : String)
    (names : List String) (hnd : names.Nodup) (hh : "Helvetica" ∉ names)
    (hlen : names.length ≤ 624) :
    ((addTrueTypeFont reg name).2 = some .tooManyFonts ↔ 625 ≤ reg.length)
      ∧ (625 ≤ reg.length → (addTrueTypeFont reg name).1 = reg)
      ∧ (reg.length < 625 → (addTrueTypeFont reg name).2 = none)
      ∧ (registerFonts initialFontRegistry names).2 = none
      ∧ (registerFonts initialFontRegistry names).1.map Prod.snd
          = List.range (names.length + 1) := by
  have hdense := registerFonts_dense names initialFontRegistry
    (by
      intro n hn p hp
      simp only [initialFontRegistry, List.mem_singleton] at hp
      subst hp
      intro hEq
      cases hEq
      exact hh hn)
    hnd (by decide) (by simp [initialFontRegistry]; omega)
  refine ⟨?_, ?_, ?_, hdense.1, ?_⟩
  · unfold addTrueTypeFont
    split <;> simp_all
  · intro h
    unfold addTrueTypeFont
    rw [if_pos h]
  · intro h
    unfold addTrueTypeFont
    rw [if_neg (by omega)]
  · have := hdense.2
    simpa [initialFontRegistry, Nat.add_comm] using this

/-- Closed witness for the C8 theorem with two fresh registrations. -/
theorem addTrueTypeFont_cap_and_dense_witness :
    ((addTrueTypeFont initialFontRegistry "X").2 = some .tooManyFonts
        ↔ 625 ≤ initialFontRegistry.length)
      ∧ (625 ≤ initialFontRegistry.length →
          (addTrueTypeFont initialFontRegistry "X").1 = initialFontRegistry)
      ∧ (initialFontRegistry.length < 625 →
          (addTrueTypeFont initialFontRegistry "X").2 = none)
      ∧ (registerFonts initialFontRegistry ["A", "B"]).2 = none
      ∧ (registerFonts initialFontRegistry ["A", "B"]).1.map Prod.snd
          = List.range (["A", "B"].length + 1) :=
  addTrueTypeFont_cap_and_dense initialFontRegistry "X" ["A", "B"]
    (by decide) (by decide) (by decide)

/-! ## Sfnt front end: magic check and table directory (lines 93-127) -/

/-- Errors of the TrueType parser front end. -/
inductive FontError
  | badMagic
deriving DecidableEq

/-- Big-endian 16-bit read at byte position `i`. -/
def readBE16At (l : List Nat) (i : Nat) : Nat := beVal ((l.drop i).take 2)

/-- One table-directory record as read by `getEmbeddingData`: a 4-byte
tag, the checksum (read as two 16-bit halves in the source), a 32-bit
offset and a 32-bit length; records are 16 bytes each from byte 12. -/
structure TableRecord where
  tag : List Nat
  checksumHi : Nat
  checksumLo : Nat
  offset : Nat
  length : Nat
deriving DecidableEq, Repr

/-- Reading of the `numTables` directory records after the offset
subtable (numTables, searchRange, entrySelector, rangeShift occupy bytes
4..11). -/
def readDirectory (data : List Nat) (numTables : Nat) : List TableRecord :=
  (List.range numTables).map (fun i =>
    { tag := (data.drop (12 + 16 * i)).take 4
      checksumHi := readBE16At data (12 + 16 * i + 4)
      checksumLo := readBE16At data (12 + 16 * i + 6)
      offset := readBE32At data (12 + 16 * i + 8)
      length := readBE32At data (12 + 16 * i + 12) })

/-- Front end of `getEmbeddingData`: read the 4-byte sfnt version word,
fail unless it is 'true' (0x74727565) or 0x00010000, and otherwise read
numTables and the table directory. -/
def parseSfntDirectory (data : List Nat) : Except FontError (List TableRecord) :=
  if beVal (data.take 4) = 0x74727565 ∨ beVal (data.take 4) = 0x00010000 then
    .ok (readDirectory data (readBE16At data 4))
  else .error .badMagic

/-- C7: the front end fails with BadMagic exactly when the first 4-byte
sfnt version word is neither 0x00010000 nor 'true' (0x74727565); with
either magic value it proceeds to parse the table directory without
raising at that step. -/
theorem parseSfntDirectory_badMagic_iff (data : List Nat) :
    (parseSfntDirectory data = .error .badMagic
        ↔ beVal (data.take 4) ≠ 0x00010000 ∧ beVal (data.take 4) ≠ 0x74727565)
      ∧ (beVal (data.take 4) = 0x00010000 ∨ beVal (data.take 4) = 0x74727565 →
          parseSfntDirectory data = .ok (readDirectory data (readBE16At data 4))) := by
  constructor
  · unfold parseSfntDirectory
    split
    · next h =>
      constructor
      · intro hc
        cases hc
      · intro hc
        rcases h with h | h
        · exact absurd h hc.2
        · exact absurd h hc.1
    · next h =>
      push_neg at h
      exact iff_of_true rfl ⟨h.2, h.1⟩
  · intro h
    unfold parseSfntDirectory
    rw [if_pos (by tauto)]

/-- Closed witness for the C7 theorem: a six-byte blob starting with the
0x00010000 magic and declaring zero tables parses to an empty directory. -/
theorem parseSfntDirectory_badMagic_iff_witness :
    parseSfntDirectory [0, 1, 0, 0, 0, 0]
      = .ok (readDirectory [0, 1, 0, 0, 0, 0] (readBE16At [0, 1, 0, 0, 0, 0] 4)) :=
  (parseSfntDirectory_badMagic_iff [0, 1, 0, 0, 0, 0]).2 (by decide)

/-! ## Cmap subtable selection (lines 182-320) -/

/-- One cmap encoding subtable as enumerated by the parser: platformID,
platformSpecificID, the subtable's peeked format field, and its offset. -/
structure CmapSubtable where
  platformID : Nat
  platformSpecificID : Nat
  format : Nat
  offset : Nat
deriving DecidableEq, Repr

/-- Candidate-collection step, faithful to the dispatch on platformID /
platformSpecificID / cmapFormat: platforms outside {0,1,3} are skipped,
platform 0 contributes format-4 subtables to the FORMAT_4 bucket,
platform 1 contributes nothing, and on platform 3 a specific id of 1
with format 4 goes to the FORMAT_4 bucket while a specific id of 10 goes
to the FORMAT_12 bucket — but only when its format field equals 4. -/
def cmapCollect (acc : List Nat × List Nat) (s : CmapSubtable) :
    List Nat × List Nat :=
  if s.platformID = 0 then
    (if s.format = 4 then (acc.1 ++ [s.offset], acc.2) else acc)
  else if s.platformID = 1 then acc
  else if s.platformID = 3 then
    (if s.platformSpecificID = 1 ∧ s.format = 4 then (acc.1 ++ [s.offset], acc.2)
     else if s.platformSpecificID = 10 ∧ s.format = 4 then (acc.1, acc.2 ++ [s.offset])
     else acc)
  else acc

/-- The two candidate buckets (FORMAT_4, FORMAT_12) after enumerating all
cmap encoding subtables. -/
def cmapCandidates (subs : List CmapSubtable) : List Nat × List Nat :=
  subs.foldl cmapCollect ([], [])

/-- Outcome of the subtable selection in `getEmbeddingData`. -/
inductive CmapSelection
  | format12Path (offset : Nat)
  | format4Path (offset : Nat)
  | noUsableCmap
deriving DecidableEq, Repr

/-- Selection: the FORMAT_12 bucket is preferred, then the FORMAT_4
bucket, else the NoUsableCmap failure is raised. -/
def selectCmap (subs : List CmapSubtable) : CmapSelection :=
  match cmapCandidates subs with
  | (_, off12 :: _) => .format12Path off12
  | (off4 :: _, []) => .format4Path off4
  | ([], []) => .noUsableCmap

/-- C3: the platform 3 / specific 10 branch compares the subtable's
format field to 4 instead of 12, so a genuine (3, 10, format 12)
subtable is never selected: alone it makes the parser fail with
NoUsableCmap, and next to a (3, 1, format 4) subtable the format-4 one
is chosen — contradicting the claimed preference order — while a
malformed (3, 10, format 4) subtable lands in the FORMAT_12 bucket. -/
theorem cmap_format12_never_selected :
    selectCmap [⟨3, 10, 12, 100⟩] = .noUsableCmap
      ∧ selectCmap [⟨3, 10, 12, 100⟩, ⟨3, 1, 4, 200⟩] = .format4Path 200
      ∧ (cmapCandidates [⟨3, 10, 12, 100⟩, ⟨3, 1, 4, 200⟩]).2 = []
      ∧ (cmapCandidates [⟨3, 10, 4, 300⟩]).2 = [300] := by decide

/-! ## Compound-glyph component walk and the subset plan (lines 446-489) -/

/-- Signed 16-bit read (`readBytes(2, unsigned=False)`). -/
def readS16At (l : List Nat) (i : Nat) : Int := beValSigned ((l.drop i).take 2)

/-- Component-record walk of the glyf consumption loop: each record reads
flags and glyphIndex, seeks 84 (sic — the comment says 4) bytes when
ARG_1_AND_2_ARE_WORDS (0x0001) is set and 2 otherwise, seeks the
transform bytes (2 / 4 / 8 / 0 for flags 0x0008 / 0x0040 / 0x0080),
records the component, and continues while MORE_COMPONENTS (0x0020) is
set.  Fuel bounds the loop. -/
def componentWalk (data : List Nat) : Nat → Nat → List Nat
  | 0, _ => []
  | fuel + 1, pos =>
    let flags := readBE16At data pos
    let glyphIndex := readBE16At data (pos + 2)
    let argSkip := if flags &&& 1 ≠ 0 then 84 else 2
    let transformSkip :=
      if flags &&& 8 ≠ 0 then 2
      else if flags &&& 64 ≠ 0 then 4
      else if flags &&& 128 ≠ 0 then 8
      else 0
    glyphIndex ::
      (if flags &&& 32 ≠ 0 then
        componentWalk data fuel (pos + 4 + argSkip + transformSkip)
      else [])

/-- Components contributed by one glyph of the character subset: the walk
runs only when the glyph's numberOfContours (first two bytes, signed) is
negative, and starts at byte 10 of the glyph (2 contour bytes plus the 8
skipped bbox bytes). -/
def glyphComponents (glyfData : List Nat) (glyphOffset : Nat) : List Nat :=
  if readS16At glyfData glyphOffset < 0 then
    componentWalk glyfData glyfData.length (glyphOffset + 10)
  else []

/-- The glyph list of the subset plan assembled by `getEmbeddingData`:
the character-selected glyphs followed by the compound components
collected in one single sweep over those glyphs — the collected
components are appended but never themselves walked. -/
def subsetPlanGlyphs (glyfData : List Nat) (glyphOffsets : List Nat)
    (subsetGlyphs : List Nat) : List Nat :=
  subsetGlyphs ++
    (subsetGlyphs.map (fun g =>
      glyphComponents glyfData (glyphOffsets.getD g 0))).flatten

/-- Glyf table of a three-glyph nest: glyph 1 (offset 0) is a compound
referencing glyph 2, glyph 2 (offset 14) is a compound referencing glyph
3, glyph 3 (offset 28) is a simple glyph. -/
def nestedGlyf : List Nat :=
  [255, 255, 0, 0, 0, 0, 0, 0, 0, 0, 0, 0, 0, 2,
   255, 255, 0, 0, 0, 0, 0, 0, 0, 0, 0, 0, 0, 3,
   0, 1]

/-- Glyph offsets (the `glyphOffset` list built from `loca`) for
`nestedGlyf`: gid 0 points at the simple glyph, gid 1 at byte 0, gid 2
at byte 14, gid 3 at byte 28. -/
def nestedLoca : List Nat := [28, 0, 14, 28]

/-- C1: the compound walk is one level deep, so the subset plan is not
closed under transitive compound dependencies: with the subset selecting
glyph 1, where glyph 1 is a compound referencing glyph 2 and glyph 2 a
compound referencing glyph 3, the plan is [1, 2]; glyph 2 is in the
plan, is compound, and references glyph 3, yet glyph 3 is missing from
the plan (its componentGID can therefore not be rewritten to any new GID
of the emitted font). -/
theorem subsetPlan_not_transitively_closed :
    subsetPlanGlyphs nestedGlyf nestedLoca [1] = [1, 2]
      ∧ 2 ∈ subsetPlanGlyphs nestedGlyf nestedLoca [1]
      ∧ readS16At nestedGlyf (nestedLoca.getD 2 0) < 0
      ∧ glyphComponents nestedGlyf (nestedLoca.getD 2 0) = [3]
      ∧ 3 ∉ subsetPlanGlyphs nestedGlyf nestedLoca [1] := by decide

/-! ## Subset cmap (format 4) synthesis (lines 440-576) -/

/-- Run-grouping loop over the sorted (char, glyph) pairs: a pair whose
char is exactly one above the previous char joins the current group,
otherwise the group is emitted and a new one starts. -/
def buildRunsGo (groupChar lastChar : Nat) (grp : List Nat) :
    List (Nat × Nat) → List (Nat × List Nat)
  | [] => [(groupChar, grp)]
  | (c, g) :: rest =>
    if c - lastChar = 1 then buildRunsGo groupChar c (grp ++ [g]) rest
    else (groupChar, grp) :: buildRunsGo c c [g] rest

/-- continuousSubsetCharToGlyph: the sorted subset pairs grouped into
runs of consecutive code points, each keyed by its start char and
carrying its glyph list in order. -/
def buildRuns : List (Nat × Nat) → List (Nat × List Nat)
  | [] => []
  | (c, g) :: rest => buildRunsGo c c [g] rest

/-- subsetGlyphToId: the dict built by `subsetGlyphToId[glyph] = id` over
`enumerate(sortedSubsetCharToGlyph)` before the compound entries are
appended; a later pair with the same glyph overwrites an earlier one, so
the lookup is the last matching index. -/
def subsetGlyphToId (scg : List (Nat × Nat)) (g : Nat) : Nat :=
  match scg.enum.reverse.find? (fun p => p.2.2 = g) with
  | some p => p.1
  | none => 0

/-- Expansion of one run back into (char, glyph) pairs: run (c, vs)
stands for the consecutive code points c, c+1, ..., c+|vs|-1 paired with
its glyphs in order. -/
def runExpand (r : Nat × List Nat) : List (Nat × Nat) :=
  (List.range' r.1 r.2.length).zip r.2

/-- Position inside the sorted subset list of the first pair of run `k`:
the total size of the preceding runs. -/
def runStartPos (runs : List (Nat × List Nat)) (k : Nat) : Nat :=
  ((runs.take k).map (fun r => r.2.length)).sum

/-- New GID assigned by the glyf/hmtx/loca rebuild to the subset entry at
position `i` of the sorted subset list: the rebuild loop iterates
`[(0,0)] ++ sortedSubsetCharToGlyph`, placing that entry's glyph at
index `i + 1` of the emitted font (GID 0 stays `.notdef`). -/
def newGID (i : Nat) : Nat := i + 1

/-- The endCode entries, one per run: `char + len(values) - 1`. -/
def cmapEndCodes (runs : List (Nat × List Nat)) : List Int :=
  runs.map (fun r => (r.1 : Int) + r.2.length - 1)

/-- The startCode entries, one per run. -/
def cmapStartCodes (runs : List (Nat × List Nat)) : List Int :=
  runs.map (fun r => (r.1 : Int))

/-- The idDelta entries, one per run:
`subsetGlyphToId[values[0]] - char + 1`. -/
def cmapIdDeltas (scg : List (Nat × Nat)) (runs : List (Nat × List Nat)) : List Int :=
  runs.map (fun r => (subsetGlyphToId scg (r.2.headD 0) : Int) - r.1 + 1)

/-- The glyph-index-array entries: `subsetGlyphToId[v] + 1` for every
glyph of every run, in order. -/
def cmapGlyphIndexEntries (scg : List (Nat × Nat))
    (runs : List (Nat × List Nat)) : List Int :=
  (runs.map (fun r => r.2.map (fun v => (subsetGlyphToId scg v : Int) + 1))).flatten

/-- The searchRange doubling loop (`while searchRange*2 <= segCount`),
returning (searchRange before the final doubling, entrySelector); fuel
bounds the loop. -/
def searchRangeLoop : Nat → Nat → Nat → Nat → Nat × Nat
  | 0, sr, es, _ => (sr, es)
  | fuel + 1, sr, es, segCount =>
    if sr * 2 ≤ segCount then searchRangeLoop fuel (sr * 2) (es + 1) segCount
    else (sr, es)

/-- segCount of the subset cmap: one segment per contiguous run plus the
sentinel (`len(continuousSubsetCharToGlyph) + 1`). -/
def cmapSegCount (scg : List (Nat × Nat)) : Nat := (buildRuns scg).length + 1

/-- The declared subtable length field:
`16 + (8*segCount) + (numGlyphs+1)` where
`numGlyphs = len(sortedSubsetCharToGlyph)+1` is computed after the
compound pairs have been appended. -/
def cmapLengthField (scg compound : List (Nat × Nat)) : Nat :=
  16 + 8 * cmapSegCount scg + (scg.length + compound.length + 1 + 1)

/-- searchRange after the doubling loop and its final `*= 2`. -/
def cmapSearchRange (scg : List (Nat × Nat)) : Nat :=
  (searchRangeLoop (cmapSegCount scg) 1 0 (cmapSegCount scg)).1 * 2

/-- entrySelector accumulated by the doubling loop. -/
def cmapEntrySelector (scg : List (Nat × Nat)) : Nat :=
  (searchRangeLoop (cmapSegCount scg) 1 0 (cmapSegCount scg)).2

/-- rangeShift: `segCount * 2 - searchRange`. -/
def cmapRangeShift (scg : List (Nat × Nat)) : Nat :=
  cmapSegCount scg * 2 - cmapSearchRange scg

/-- The first 13 entries of the `cmap` integer list: version 0, one
subtable, the (3, 1) subtable record with its 32-bit offset 12 written
as two 16-bit halves, then the format-4 subtable header fields. -/
def cmapHeader (scg compound : List (Nat × Nat)) : List Int :=
  [0, 1, 3, 1, 0, 12,
   4, (cmapLengthField scg compound : Int), 0, (cmapSegCount scg * 2 : Nat),
   (cmapSearchRange scg : Int), (cmapEntrySelector scg : Int),
   (cmapRangeShift scg : Int)]

/-- The entries after the subtable header: endCodes then the 0xFFFF
sentinel and the reservedPad, startCodes then the 0xFFFF sentinel,
idDeltas then the sentinel delta 1, one zero idRangeOffset per segment,
and the glyph index entries followed by a final 0. -/
def cmapTail (scg : List (Nat × Nat)) : List Int :=
  cmapEndCodes (buildRuns scg)
    ++ ([0xFFFF, 0]
    ++ (cmapStartCodes (buildRuns scg)
    ++ ([0xFFFF]
    ++ (cmapIdDeltas scg (buildRuns scg)
    ++ ([1]
    ++ (List.replicate ((buildRuns scg).length + 1) 0
    ++ (cmapGlyphIndexEntries scg (buildRuns scg)
    ++ [0])))))))

/-- The full `cmap` integer list assembled by getEmbeddingData.  `scg` is
sortedSubsetCharToGlyph before the compound entries are appended and
`compound` the appended compound (1, glyphIndex) pairs. -/
def buildCmap (scg compound : List (Nat × Nat)) : List Int :=
  cmapHeader scg compound ++ cmapTail scg

/-- Two-byte big-endian packing of one cmap entry: `struct.pack(">H", cm)`
for nonnegative entries and `struct.pack(">h", cm)` for negative ones;
for in-range entries both produce the value reduced modulo 2^16. -/
def packCmapEntry (i : Int) : List Nat :=
  [(i % 65536).toNat / 256, (i % 65536).toNat % 256]

/-- The emitted `cmap` table bytes. -/
def cmapBytes (scg compound : List (Nat × Nat)) : List Nat :=
  ((buildCmap scg compound).map packCmapEntry).flatten

theorem buildRunsGo_expand (rest : List (Nat × Nat)) :
    ∀ (groupChar lastChar : Nat) (grp : List Nat), grp ≠ [] →
    lastChar + 1 = groupChar + grp.length →
    ((buildRunsGo groupChar lastChar grp rest).map runExpand).flatten
      = (List.range' groupChar grp.length).zip grp ++ rest := by
  induction rest with
  | nil =>
    intro groupChar lastChar grp hne hlc
    simp [buildRunsGo, runExpand]
  | cons p rest ih =>
    intro groupChar lastChar grp hne hlc
    obtain ⟨c, g⟩ := p
    have hgl : 1 ≤ grp.length := List.length_pos.mpr hne
    by_cases hc : c - lastChar = 1
    · have hc' : c = groupChar + grp.length := by omega
      rw [buildRunsGo, if_pos hc]
      rw [ih groupChar c (grp ++ [g]) (by simp)
        (by simp only [List.length_append, List.length_singleton]; omega)]
      have hlen : (List.range' groupChar grp.length).length = grp.length :=
        List.length_range' ..
      simp only [List.length_append, List.length_singleton]
      rw [List.range'_concat, List.zip_append hlen]
      simp [hc']
    · rw [buildRunsGo, if_neg hc]
      simp only [List.map_cons, List.flatten_cons]
      rw [ih c c [g] (by simp) (by simp)]
      simp [runExpand]

/-- The run grouping is faithful: expanding the produced runs recovers
exactly the sorted subset pairs. -/
theorem buildRuns_expand (scg : List (Nat × Nat)) :
    ((buildRuns scg).map runExpand).flatten = scg := by
  cases scg with
  | nil => rfl
  | cons p rest =>
    obtain ⟨c, g⟩ := p
    rw [buildRuns, buildRunsGo_expand rest c c [g] (by simp) (by simp)]
    simp

theorem buildRunsGo_nonempty (rest : List (Nat × Nat)) :
    ∀ (groupChar lastChar : Nat) (grp : List Nat), grp ≠ [] →
    ∀ r ∈ buildRunsGo groupChar lastChar grp rest, r.2 ≠ [] := by
  induction rest with
  | nil =>
    intro groupChar lastChar grp hne r hr
    simp only [buildRunsGo, List.mem_singleton] at hr
    subst hr
    exact hne
  | cons p rest ih =>
    intro groupChar lastChar grp hne r hr
    obtain ⟨c, g⟩ := p
    by_cases hc : c - lastChar = 1
    · rw [buildRunsGo, if_pos hc] at hr
      exact ih groupChar c (grp ++ [g]) (by simp) r hr
    · rw [buildRunsGo, if_neg hc] at hr
      rcases List.mem_cons.mp hr with h | h
      · subst h; exact hne
      · exact ih c c [g] (by simp) r h

theorem buildRuns_nonempty (scg : List (Nat × Nat)) :
    ∀ r ∈ buildRuns scg, r.2 ≠ [] := by
  cases scg with
  | nil => intro r hr; simp [buildRuns] at hr
  | cons p rest =>
    obtain ⟨c, g⟩ := p
    exact buildRunsGo_nonempty rest c c [g] (by simp)

theorem flatten_runExpand_get (R : List (Nat × List Nat)) :
    ∀ k, k < R.length → (∀ r ∈ R, r.2 ≠ []) →
    ((R.map runExpand).flatten)[runStartPos R k]?
      = some ((R.getD k (0, [])).1, (R.getD k (0, [])).2.headD 0) := by
  induction R with
  | nil => intro k hk; simp at hk
  | cons r R ih =>
    intro k hk hne
    cases k with
    | zero =>
      have hr2 : r.2 ≠ [] := hne r (by simp)
      obtain ⟨v, vs, hv⟩ := List.exists_cons_of_ne_nil hr2
      simp only [runStartPos, List.take_zero, List.map_nil, List.sum_nil,
        List.map_cons, List.flatten_cons]
      rw [List.getElem?_append_left]
      · simp [runExpand, hv, List.range'_succ]
      · simp only [runExpand, List.length_zip, List.length_range', hv]
        simp
    | succ k =>
      have hpos : runStartPos (r :: R) (k + 1)
          = (runExpand r).length + runStartPos R k := by
        simp only [runStartPos, List.take_succ_cons, List.map_cons,
          List.sum_cons, runExpand, List.length_zip, List.length_range']
        simp
      simp only [List.map_cons, List.flatten_cons, hpos]
      rw [List.getElem?_append_right (by omega)]
      rw [show (runExpand r).length + runStartPos R k - (runExpand r).length
        = runStartPos R k from by omega]
      rw [ih k (by simpa using hk) (fun x hx => hne x (by simp [hx]))]
      rfl

theorem subsetGlyphToId_getElem (scg : List (Nat × Nat))
    (hnd : (scg.map Prod.snd).Nodup) (i : Nat) (hi : i < scg.length) :
    subsetGlyphToId scg scg[i].2 = i := by
  unfold subsetGlyphToId
  have hmem : (i, scg[i]) ∈ scg.enum.reverse := by
    rw [List.mem_reverse, List.mem_enum_iff_getElem?]
    exact List.getElem?_eq_getElem hi
  have hsome : (scg.enum.reverse.find? (fun p => p.2.2 = scg[i].2)).isSome := by
    rw [List.find?_isSome]
    exact ⟨(i, scg[i]), hmem, by simp⟩
  obtain ⟨p, hp⟩ := Option.isSome_iff_exists.mp hsome
  rw [hp]
  have hpmem : p ∈ scg.enum := List.mem_reverse.mp (List.mem_of_find?_eq_some hp)
  have hpred : p.2.2 = scg[i].2 := by simpa using List.find?_some hp
  have hval : scg[p.1]? = some p.2 := List.mem_enum_iff_getElem?.mp hpmem
  obtain ⟨hp1lt, hscgp⟩ := List.getElem?_eq_some.mp hval
  have hb1 : p.1 < (scg.map Prod.snd).length := by simpa using hp1lt
  have hb2 : i < (scg.map Prod.snd).length := by simpa using hi
  have hmapeq : (scg.map Prod.snd)[p.1] = (scg.map Prod.snd)[i] := by
    rw [List.getElem_map, List.getElem_map, hscgp, hpred]
  exact (List.Nodup.getElem_inj_iff hnd).mp hmapeq

theorem cmapGlyphIndexEntries_length (scg : List (Nat × Nat)) :
    (cmapGlyphIndexEntries scg (buildRuns scg)).length = scg.length := by
  have h1 : (cmapGlyphIndexEntries scg (buildRuns scg)).length
      = ((buildRuns scg).map (fun r => r.2.length)).sum := by
    simp [cmapGlyphIndexEntries, List.length_flatten, List.map_map,
      Function.comp_def]
  have h2 : scg.length = ((buildRuns scg).map (fun r => r.2.length)).sum := by
    conv_lhs => rw [← buildRuns_expand scg]
    simp [List.length_flatten, List.map_map, Function.comp_def, runExpand]
  rw [h1, ← h2]

theorem cmapBytes_length_eq (scg compound : List (Nat × Nat)) :
    (cmapBytes scg compound).length = 2 * (buildCmap scg compound).length := by
  unfold cmapBytes
  generalize buildCmap scg compound = l
  induction l with
  | nil => rfl
  | cons x xs ih =>
    simp only [List.map_cons, List.flatten_cons, List.length_append, ih,
      List.length_cons, packCmapEntry]
    simp
    omega

theorem buildCmap_length (scg compound : List (Nat × Nat)) :
    (buildCmap scg compound).length
      = 19 + 4 * (buildRuns scg).length + scg.length := by
  simp only [buildCmap, cmapHeader, cmapTail, List.length_append,
    List.length_cons, List.length_nil, cmapEndCodes, cmapStartCodes,
    cmapIdDeltas, List.length_map, List.length_replicate,
    cmapGlyphIndexEntries_length]
  omega

/-- C4 (amended): the emitted subset cmap is one format-4 subtable in
which (i) the emitted runs expand exactly to the sorted subset pairs,
(ii) the segCountX2 field is 2 * (number of contiguous runs + 1 sentinel),
(iii) the declared length field is `16 + 8*segCount + numGlyphs + 1` —
NOT the actual byte length, which is `cmapBytes.length - 12 =
26 + 8*runs + 2*numChars` (iv), (v) each non-sentinel idDelta equals the
run's first new GID minus its start char (the source stores
`subsetGlyphToId[firstGlyph] - startChar + 1` and the first new GID is
`subsetGlyphToId[firstGlyph] + 1`), (vi)-(viii) the sentinel segment
covers 0xFFFF..0xFFFF with idDelta 1, and (ix) every idRangeOffset is 0. -/
theorem buildCmap_structure (scg compound : List (Nat × Nat))
    (hnd : (scg.map Prod.snd).Nodup) :
    ((buildRuns scg).map runExpand).flatten = scg
    ∧ (buildCmap scg compound)[9]?
        = some ((((buildRuns scg).length + 1) * 2 : Nat) : Int)
    ∧ (buildCmap scg compound)[7]?
        = some ((16 + 8 * ((buildRuns scg).length + 1)
            + (scg.length + compound.length + 1 + 1) : Nat) : Int)
    ∧ (cmapBytes scg compound).length
        = 38 + 8 * (buildRuns scg).length + 2 * scg.length
    ∧ (∀ k, k < (buildRuns scg).length →
        (cmapIdDeltas scg (buildRuns scg)).getD k 0
          = (newGID (runStartPos (buildRuns scg) k) : Int)
            - ((buildRuns scg).getD k (0, [])).1)
    ∧ (buildCmap scg compound)[13 + (buildRuns scg).length]? = some 0xFFFF
    ∧ (buildCmap scg compound)[15 + 2 * (buildRuns scg).length]? = some 0xFFFF
    ∧ (buildCmap scg compound)[16 + 3 * (buildRuns scg).length]? = some 1
    ∧ (∀ j, j < (buildRuns scg).length + 1 →
        (buildCmap scg compound)[17 + 3 * (buildRuns scg).length + j]? = some 0) := by
  have hlenH : (cmapHeader scg compound).length = 13 := rfl
  have hlenE : (cmapEndCodes (buildRuns scg)).length = (buildRuns scg).length :=
    List.length_map ..
  have hlenS : (cmapStartCodes (buildRuns scg)).length = (buildRuns scg).length :=
    List.length_map ..
  have hlenD : (cmapIdDeltas scg (buildRuns scg)).length = (buildRuns scg).length :=
    List.length_map ..
  have hstep2 : ∀ (l₁ l₂ : List Int) (n j : Nat), l₁.length = n →
      (l₁ ++ l₂)[n + j]? = l₂[j]? := by
    intro l₁ l₂ n j h
    rw [List.getElem?_append_right (by omega)]
    congr 1
    omega
  have htail : ∀ j, (buildCmap scg compound)[13 + j]? = (cmapTail scg)[j]? := by
    intro j
    rw [buildCmap]
    exact hstep2 _ _ 13 j hlenH
  refine ⟨buildRuns_expand scg, ?_, ?_, ?_, ?_, ?_, ?_, ?_, ?_⟩
  · rw [buildCmap, List.getElem?_append_left (by rw [hlenH]; omega)]
    rfl
  · rw [buildCmap, List.getElem?_append_left (by rw [hlenH]; omega)]
    rfl
  · rw [cmapBytes_length_eq, buildCmap_length]
    omega
  · intro k hk
    have hget := flatten_runExpand_get (buildRuns scg) k hk (buildRuns_nonempty scg)
    rw [buildRuns_expand scg] at hget
    obtain ⟨hlt, hscg⟩ := List.getElem?_eq_some.mp hget
    have hid : subsetGlyphToId scg (((buildRuns scg).getD k (0, [])).2.headD 0)
        = runStartPos (buildRuns scg) k := by
      have := subsetGlyphToId_getElem scg hnd (runStartPos (buildRuns scg) k) hlt
      rw [hscg] at this
      exact this
    have hval : (cmapIdDeltas scg (buildRuns scg)).getD k 0
        = (subsetGlyphToId scg (((buildRuns scg).getD k (0, [])).2.headD 0) : Int)
          - ((buildRuns scg).getD k (0, [])).1 + 1 := by
      unfold cmapIdDeltas
      rw [List.getD_eq_getElem _ _ (by simpa using hk), List.getElem_map,
        List.getD_eq_getElem _ _ hk]
    rw [hval, hid]
    unfold newGID
    push_cast
    ring
  · rw [show 13 + (buildRuns scg).length = 13 + ((buildRuns scg).length + 0)
      from by omega, htail]
    unfold cmapTail
    rw [hstep2 _ _ _ _ hlenE]
    simp
  · rw [show 15 + 2 * (buildRuns scg).length
      = 13 + ((buildRuns scg).length + (2 + ((buildRuns scg).length + 0)))
      from by omega, htail]
    unfold cmapTail
    rw [hstep2 _ _ _ _ hlenE, hstep2 ([0xFFFF, 0] : List Int) _ 2 _ rfl,
      hstep2 _ _ _ _ hlenS]
    simp
  · rw [show 16 + 3 * (buildRuns scg).length
      = 13 + ((buildRuns scg).length + (2 + ((buildRuns scg).length
          + (1 + ((buildRuns scg).length + 0)))))
      from by omega, htail]
    unfold cmapTail
    rw [hstep2 _ _ _ _ hlenE, hstep2 ([0xFFFF, 0] : List Int) _ 2 _ rfl,
      hstep2 _ _ _ _ hlenS, hstep2 ([0xFFFF] : List Int) _ 1 _ rfl,
      hstep2 _ _ _ _ hlenD]
    simp
  · intro j hj
    rw [show 17 + 3 * (buildRuns scg).length + j
      = 13 + ((buildRuns scg).length + (2 + ((buildRuns scg).length
          + (1 + ((buildRuns scg).length + (1 + j))))))
      from by omega, htail]
    unfold cmapTail
    rw [hstep2 _ _ _ _ hlenE, hstep2 ([0xFFFF, 0] : List Int) _ 2 _ rfl,
      hstep2 _ _ _ _ hlenS, hstep2 ([0xFFFF] : List Int) _ 1 _ rfl,
      hstep2 _ _ _ _ hlenD, hstep2 ([1] : List Int) _ 1 _ rfl]
    rw [List.getElem?_append_left (by rw [List.length_replicate]; omega)]
    rw [List.getElem?_replicate, if_pos hj]

/-- C4 counterexample: for the single-character subset {65 ↦ glyph 5}
with no compound dependencies, the emitted subtable declares length 35
while its actual byte length is 36, and the single segment's idDelta is
-64 = firstNewGID - startChar (firstNewGID = 1), not
firstNewGID - startChar + 1 = -63; the claim as stated is false. -/
theorem cmap_declared_length_and_idDelta_mismatch :
    (buildCmap [(65, 5)] [])[7]? = some 35
      ∧ (cmapBytes [(65, 5)] []).length - 12 = 36
      ∧ cmapIdDeltas [(65, 5)] (buildRuns [(65, 5)]) = [-64]
      ∧ newGID (runStartPos (buildRuns [(65, 5)]) 0) = 1
      ∧ ((newGID (runStartPos (buildRuns [(65, 5)]) 0) : Int) - 65 + 1 ≠ -64)
      ∧ (35 : Nat) ≠ 36 := by decide

/-- Closed witness for the amended C4 theorem on a three-character,
two-run subset with one compound entry. -/
theorem buildCmap_structure_witness :
    ((buildRuns [(65, 5), (66, 7), (70, 9)]).map runExpand).flatten
        = [(65, 5), (66, 7), (70, 9)]
      ∧ (cmapIdDeltas [(65, 5), (66, 7), (70, 9)]
            (buildRuns [(65, 5), (66, 7), (70, 9)])).getD 1 0
          = (newGID (runStartPos (buildRuns [(65, 5), (66, 7), (70, 9)]) 1) : Int)
            - ((buildRuns [(65, 5), (66, 7), (70, 9)]).getD 1 (0, [])).1 :=
  ⟨(buildCmap_structure [(65, 5), (66, 7), (70, 9)] [(1, 3)] (by decide)).1,
   (buildCmap_structure [(65, 5), (66, 7), (70, 9)] [(1, 3)]
      (by decide)).2.2.2.2.1 1 (by decide)⟩

/-! ## PDF object writer: offsets, xref table and trailer (PaPDF.py) -/

/-- State of the PDF writer: the output buffer (as characters), the
objectCount counter (initialized to 2 for the reserved Pages root and
resources objects), and the offsets dict as an insertion-ordered
association of object number to byte offset.  In every reachable state
each object number is assigned an offset exactly once, so the dict is
modelled by an append-only association list. -/
structure PdfState where
  buffer : List Char
  objectCount : Nat
  offsets : List (Nat × Nat)

/-- `_bufferAppend`: appends the input followed by a newline. -/
def bufferAppend (s : PdfState) (content : List Char) : PdfState :=
  { s with buffer := s.buffer ++ (content ++ ['\n']) }

/-- The `N 0 obj` token that opens object N. -/
def objTok (n : Nat) : List Char := Nat.toDigits 10 n ++ (" 0 obj").toList

/-- `_addNewObject`: increments objectCount, records the current buffer
length as the new object's offset, and appends the object header line. -/
def addNewObject (s : PdfState) : PdfState :=
  bufferAppend
    { s with
      objectCount := s.objectCount + 1
      offsets := s.offsets ++ [(s.objectCount + 1, s.buffer.length)] }
    (objTok (s.objectCount + 1))

/-- Direct emission of a reserved object (1, the Pages root, or 2, the
resources dictionary) in `_addAppendix`:
`self.offsets[n] = len(self.buffer)` followed by
`self._bufferAppend(str(n) + " 0 obj")`; objectCount is untouched since
it started at 2 to account for these two objects. -/
def writeReservedObject (s : PdfState) (n : Nat) : PdfState :=
  bufferAppend { s with offsets := s.offsets ++ [(n, s.buffer.length)] } (objTok n)

/-- Buffer-writing commands: every mutation of the output buffer is
either a raw append (dictionary lines, stream bytes, `endobj`, ...) or
an `_addNewObject` header. -/
inductive PdfCmd
  | raw (content : List Char)
  | newObj

def runCmd (s : PdfState) : PdfCmd → PdfState
  | .raw content => bufferAppend s content
  | .newObj => addNewObject s

def runCmds (s : PdfState) (cmds : List PdfCmd) : PdfState :=
  cmds.foldl runCmd s

/-- State after `__init__`: the `%PDF-1.4` header line in the buffer,
objectCount 2, no offsets recorded yet. -/
def initPdfState : PdfState :=
  { buffer := ("%PDF-1.4").toList ++ ['\n'], objectCount := 2, offsets := [] }

/-- The object emission of `_addAppendix`: object 1 (Pages root) with its
body, the deferred font/image/shading/extGState objects (arbitrary
interleavings of raw appends and `_addNewObject`), object 2 (resources)
with its body, then the Info object and the Catalog object. -/
def addAppendix (s : PdfState) (pagesBody : List Char) (midCmds : List PdfCmd)
    (resourcesBody infoBody catalogBody : List Char) : PdfState :=
  let s1 := bufferAppend (writeReservedObject s 1) pagesBody
  let s2 := runCmds s1 midCmds
  let s3 := bufferAppend (writeReservedObject s2 2) resourcesBody
  let s4 := bufferAppend (addNewObject s3) infoBody
  bufferAppend (addNewObject s4) catalogBody

/-- The writer state at the time the xref table is emitted, as reached by
`close()`: user-phase commands (page content streams, `addPage` headers,
image streams) followed by `_addAppendix`. -/
def finalizeState (userCmds : List PdfCmd) (pagesBody : List Char)
    (midCmds : List PdfCmd) (resourcesBody infoBody catalogBody : List Char) :
    PdfState :=
  addAppendix (runCmds initPdfState userCmds) pagesBody midCmds
    resourcesBody infoBody catalogBody

/-- `"%010d" % offset`: the offset decimal digits left-padded with zeros
to width ten. -/
def padTen (n : Nat) : List Char :=
  List.replicate (10 - (Nat.toDigits 10 n).length) '0' ++ Nat.toDigits 10 n

/-- One xref row for an in-use object: `"%010d 00000 n "`. -/
def xrefRow (off : Nat) : List Char := padTen off ++ (" 00000 n ").toList

/-- The xref table rows: the free entry for object 0 followed by one row
per object number 1..objectCount, each offset looked up in the dict. -/
def xrefRows (s : PdfState) : List (List Char) :=
  ("0000000000 65535 f ").toList
    :: (List.range' 1 s.objectCount).map
        (fun i => xrefRow ((s.offsets.lookup i).getD 0))

/-- The `/Size` value written in the trailer: objectCount + 1. -/
def trailerSize (s : PdfState) : Nat := s.objectCount + 1

/-- An offsets entry is valid when the object's `N 0 obj` token sits at
the recorded byte offset of the buffer. -/
def entryValid (buffer : List Char) (p : Nat × Nat) : Prop :=
  p.2 + (objTok p.1).length ≤ buffer.length
    ∧ (buffer.drop p.2).take (objTok p.1).length = objTok p.1

theorem entryValid_append (buffer m : List Char) (p : Nat × Nat)
    (h : entryValid buffer p) : entryValid (buffer ++ m) p := by
  obtain ⟨h1, h2⟩ := h
  constructor
  · rw [List.length_append]; omega
  · rw [List.drop_append_eq_append_drop]
    rw [List.take_append_of_le_length (by rw [List.length_drop]; omega)]
    exact h2

/-- Writer invariant: the offsets dict holds exactly the keys of `extra`
(reserved objects already written) plus 3..objectCount, every entry
points at its object token, and the bookkeeping lengths agree. -/
def Inv (s : PdfState) (extra : List Nat) : Prop :=
  2 ≤ s.objectCount
    ∧ (∀ k, (∃ v, (k, v) ∈ s.offsets) ↔ (k ∈ extra ∨ (3 ≤ k ∧ k ≤ s.objectCount)))
    ∧ (∀ p ∈ s.offsets, entryValid s.buffer p)
    ∧ s.offsets.length = extra.length + (s.objectCount - 2)

theorem inv_bufferAppend (s : PdfState) (extra : List Nat) (c : List Char)
    (h : Inv s extra) : Inv (bufferAppend s c) extra := by
  obtain ⟨h1, h2, h3, h4⟩ := h
  exact ⟨h1, h2, fun p hp => entryValid_append _ _ _ (h3 p hp), h4⟩

theorem inv_addNewObject (s : PdfState) (extra : List Nat)
    (hex : ∀ e ∈ extra, e < 3) (h : Inv s extra) :
    Inv (addNewObject s) extra := by
  obtain ⟨h1, h2, h3, h4⟩ := h
  refine ⟨by simp [addNewObject, bufferAppend]; omega, ?_, ?_, ?_⟩
  · intro k
    simp only [addNewObject, bufferAppend, List.mem_append,
      List.mem_singleton]
    constructor
    · rintro ⟨v, hv | hv⟩
      · rcases (h2 k).mp ⟨v, hv⟩ with hk | hk
        · exact Or.inl hk
        · exact Or.inr ⟨hk.1, by omega⟩
      · have hk : k = s.objectCount + 1 := congrArg Prod.fst hv
        exact Or.inr ⟨by omega, by omega⟩
    · rintro (hk | ⟨hk3, hkle⟩)
      · obtain ⟨v, hv⟩ := (h2 k).mpr (Or.inl hk)
        exact ⟨v, Or.inl hv⟩
      · by_cases hk : k ≤ s.objectCount
        · obtain ⟨v, hv⟩ := (h2 k).mpr (Or.inr ⟨hk3, hk⟩)
          exact ⟨v, Or.inl hv⟩
        · have : k = s.objectCount + 1 := by omega
          exact ⟨s.buffer.length, Or.inr (by rw [this])⟩
  · intro p hp
    simp only [addNewObject, bufferAppend, List.mem_append,
      List.mem_singleton] at hp ⊢
    rcases hp with hp | hp
    · exact entryValid_append _ _ _ (h3 p hp)
    · subst hp
      constructor
      · simp only [List.length_append]
        simp
      · rw [List.drop_append_eq_append_drop, List.drop_length,
          Nat.sub_self, List.drop_zero, List.nil_append]
        exact List.take_left ..
  · simp only [addNewObject, bufferAppend, List.length_append,
      List.length_singleton]
    omega

theorem inv_runCmds (cmds : List PdfCmd) (s : PdfState) (extra : List Nat)
    (hex : ∀ e ∈ extra, e < 3) (h : Inv s extra) :
    Inv (runCmds s cmds) extra := by
  induction cmds generalizing s with
  | nil => exact h
  | cons c rest ih =>
    cases c with
    | raw content => exact ih _ (inv_bufferAppend s extra content h)
    | newObj => exact ih _ (inv_addNewObject s extra hex h)

theorem inv_writeReservedObject (s : PdfState) (extra : List Nat) (n : Nat)
    (hn : n < 3) (h : Inv s extra) :
    Inv (writeReservedObject s n) (extra ++ [n]) := by
  obtain ⟨h1, h2, h3, h4⟩ := h
  refine ⟨h1, ?_, ?_, ?_⟩
  · intro k
    simp only [writeReservedObject, bufferAppend, List.mem_append,
      List.mem_singleton]
    constructor
    · rintro ⟨v, hv | hv⟩
      · rcases (h2 k).mp ⟨v, hv⟩ with hk | hk
        · exact Or.inl (Or.inl hk)
        · exact Or.inr hk
      · have hkn : k = n := congrArg Prod.fst hv
        exact Or.inl (Or.inr hkn)
    · rintro ((hk | hk) | hk)
      · obtain ⟨v, hv⟩ := (h2 k).mpr (Or.inl hk)
        exact ⟨v, Or.inl hv⟩
      · exact ⟨s.buffer.length, Or.inr (by rw [hk])⟩
      · obtain ⟨v, hv⟩ := (h2 k).mpr (Or.inr hk)
        exact ⟨v, Or.inl hv⟩
  · intro p hp
    simp only [writeReservedObject, bufferAppend, List.mem_append,
      List.mem_singleton] at hp ⊢
    rcases hp with hp | hp
    · exact entryValid_append _ _ _ (h3 p hp)
    · subst hp
      constructor
      · simp only [List.length_append]
        simp
      · rw [List.drop_append_eq_append_drop, List.drop_length,
          Nat.sub_self, List.drop_zero, List.nil_append]
        exact List.take_left ..
  · simp only [writeReservedObject, bufferAppend, List.length_append,
      List.length_singleton]
    omega

theorem inv_init : Inv initPdfState [] := by
  refine ⟨le_refl 2, ?_, ?_, ?_⟩
  · intro k
    simp [initPdfState]
    omega
  · intro p hp
    simp [initPdfState] at hp
  · simp [initPdfState]

theorem lookup_mem_of_key {l : List (Nat × Nat)} {k v : Nat}
    (h : (k, v) ∈ l) : ∃ w, l.lookup k = some w ∧ (k, w) ∈ l := by
  induction l with
  | nil => simp at h
  | cons p rest ih =>
    obtain ⟨pk, pv⟩ := p
    by_cases hk : k = pk
    · subst hk
      exact ⟨pv, by simp [List.lookup], by simp⟩
    · have hh : (k, v) ∈ rest := by
        rcases List.mem_cons.mp h with hh | hh
        · exact absurd (congrArg Prod.fst hh) (by simpa using hk)
        · exact hh
      obtain ⟨w, hw1, hw2⟩ := ih hh
      refine ⟨w, ?_, List.mem_cons_of_mem _ hw2⟩
      simp only [List.lookup]
      have hbeq : (k == pk) = false := beq_eq_false_iff_ne.mpr hk
      rw [hbeq]
      exact hw1

theorem inv_finalizeState (userCmds : List PdfCmd) (pagesBody : List Char)
    (midCmds : List PdfCmd) (resourcesBody infoBody catalogBody : List Char) :
    Inv (finalizeState userCmds pagesBody midCmds resourcesBody infoBody
      catalogBody) [1, 2] := by
  have i0 := inv_runCmds userCmds initPdfState [] (by simp) inv_init
  have i1 := inv_bufferAppend _ _ pagesBody
    (inv_writeReservedObject _ [] 1 (by omega) i0)
  have i2 := inv_runCmds midCmds _ ([] ++ [1]) (by simp) i1
  have i3 := inv_bufferAppend _ _ resourcesBody
    (inv_writeReservedObject _ ([] ++ [1]) 2 (by omega) i2)
  have i4 := inv_bufferAppend _ _ infoBody
    (inv_addNewObject _ (([] ++ [1]) ++ [2]) (by intro e he; simp at he; omega) i3)
  have i5 := inv_bufferAppend _ _ catalogBody
    (inv_addNewObject _ (([] ++ [1]) ++ [2]) (by intro e he; simp at he; omega) i4)
  simpa [finalizeState, addAppendix] using i5

/-- C6: in every finalized document, entry 0 of the xref table is the
free entry `0000000000 65535 f `; the trailer's /Size equals the count
of emitted objects (offset-table entries) plus one, which also equals
objectCount + 1; and for every object number N in 1..objectCount the
offsets dict yields an offset at which the `N 0 obj` token begins — in
the buffer and in any extension of it (the file with the xref table and
trailer appended) — and the xref row for N displays exactly that
offset. -/
theorem xref_offsets_correct (userCmds : List PdfCmd) (pagesBody : List Char)
    (midCmds : List PdfCmd) (resourcesBody infoBody catalogBody : List Char) :
    (xrefRows (finalizeState userCmds pagesBody midCmds resourcesBody infoBody
        catalogBody))[0]? = some ("0000000000 65535 f ").toList
    ∧ trailerSize (finalizeState userCmds pagesBody midCmds resourcesBody
        infoBody catalogBody)
      = (finalizeState userCmds pagesBody midCmds resourcesBody infoBody
          catalogBody).offsets.length + 1
    ∧ (∀ i, 1 ≤ i →
        i ≤ (finalizeState userCmds pagesBody midCmds resourcesBody infoBody
          catalogBody).objectCount →
        ∃ off,
          (finalizeState userCmds pagesBody midCmds resourcesBody infoBody
            catalogBody).offsets.lookup i = some off
          ∧ (∀ m : List Char,
              (((finalizeState userCmds pagesBody midCmds resourcesBody
                infoBody catalogBody).buffer ++ m).drop off).take
                  (objTok i).length = objTok i)
          ∧ (xrefRows (finalizeState userCmds pagesBody midCmds resourcesBody
              infoBody catalogBody))[i]? = some (xrefRow off)) := by
  set S := finalizeState userCmds pagesBody midCmds resourcesBody infoBody
    catalogBody with hS
  obtain ⟨h1, h2, h3, h4⟩ := inv_finalizeState userCmds pagesBody midCmds
    resourcesBody infoBody catalogBody
  rw [← hS] at h1 h2 h3 h4
  refine ⟨rfl, ?_, ?_⟩
  · unfold trailerSize
    simp only [List.length_cons, List.length_nil] at h4
    omega
  · intro i hi1 hioc
    have hkey : ∃ v, (i, v) ∈ S.offsets := by
      apply (h2 i).mpr
      by_cases hi3 : 3 ≤ i
      · exact Or.inr ⟨hi3, hioc⟩
      · have h12 : i = 1 ∨ i = 2 := by omega
        rcases h12 with h | h <;> subst h
        · exact Or.inl (by decide)
        · exact Or.inl (by decide)
    obtain ⟨v, hv⟩ := hkey
    obtain ⟨off, hoff1, hoff2⟩ := lookup_mem_of_key hv
    have hval := h3 _ hoff2
    refine ⟨off, hoff1, ?_, ?_⟩
    · intro m
      exact (entryValid_append S.buffer m (i, off) hval).2
    · unfold xrefRows
      have hi' : i - 1 < (List.range' 1 S.objectCount).length := by
        rw [List.length_range']; omega
    -- row i of the xref table is the mapped entry at index i-1:
      rw [show i = (i - 1) + 1 from by omega, List.getElem?_cons_succ,
        List.getElem?_map]
      rw [List.getElem?_eq_getElem hi', List.getElem_range']
      simp only [Option.map_some']
      rw [show 1 + 1 * (i - 1) = i from by omega, hoff1]
      rfl

/-- Closed witness for the C6 theorem: the empty document (no user
commands, no deferred embedder objects) has four objects, and object 3
(the Info object) is addressed correctly by its xref entry. -/
theorem xref_offsets_correct_witness :
    ∃ off,
      (finalizeState [] [] [] [] [] []).offsets.lookup 3 = some off
      ∧ (∀ m : List Char,
          (((finalizeState [] [] [] [] [] []).buffer ++ m).drop off).take
              (objTok 3).length = objTok 3)
      ∧ (xrefRows (finalizeState [] [] [] [] [] []))[3]? = some (xrefRow off) :=
  (xref_offsets_correct [] [] [] [] [] []).2.2 3 (by decide) (by decide)

end PaPDF
